import Mathlib

/-!
Shallow embedding of the openerz route-generation layer (`src/lib/route.js`)
and the CSV import job (`src/loadData.js`), together with proofs about the
properties the specification states for them.

JavaScript objects (parameter schemas, query strings, CSV rows) are embedded
as association lists `List (String × α)`; underscore's `_.pick` / `_.omit` /
`_.keys` become the functions `pick` / `omitKeys` / `keys` below; Joi validation
rules actually used by `route.js` are embedded as the datatype `JoiRule`.
-/

namespace OpenErz

/-- Association list standing for a JavaScript object. -/
abbrev AList (α : Type) := List (String × α)

/-- First value bound to key `k` (JS property access `m[k]`). -/
def lookupKey (m : AList α) (k : String) : Option α :=
  match m with
  | [] => none
  | p :: rest => if p.1 = k then some p.2 else lookupKey rest k

/-- `_.keys(m)`: the keys of the object, in order. -/
def keys (m : AList α) : List String :=
  m.map Prod.fst

/-- Underscore `_.pick(m, ks)`: iterate the requested keys, keeping those
present in `m` with their values. -/
def pick (m : AList α) (ks : List String) : AList α :=
  ks.filterMap (fun k => (lookupKey m k).map (fun v => (k, v)))

/-- Underscore `_.omit(m, ks)`: keep the entries of `m` whose key is not
listed in `ks`. -/
def omitKeys (m : AList α) (ks : List String) : AList α :=
  m.filter (fun p => decide (p.1 ∉ ks))

theorem pick_cons_none (m : AList α) (k : String) (rest : List String)
    (h : lookupKey m k = none) : pick m (k :: rest) = pick m rest := by
  simp [pick, h]

theorem pick_cons_some (m : AList α) (k : String) (v : α) (rest : List String)
    (h : lookupKey m k = some v) :
    pick m (k :: rest) = (k, v) :: pick m rest := by
  simp [pick, h]

theorem omitKeys_cons_mem (m : AList α) (ks : List String) (k : String)
    (v : α) (h : k ∈ ks) : omitKeys ((k, v) :: m) ks = omitKeys m ks := by
  simp [omitKeys, h]

theorem omitKeys_cons_not_mem (m : AList α) (ks : List String) (k : String)
    (v : α) (h : k ∉ ks) :
    omitKeys ((k, v) :: m) ks = (k, v) :: omitKeys m ks := by
  simp [omitKeys, h]

theorem lookupKey_isSome_iff_mem_keys (m : AList α) (k : String) :
    (lookupKey m k).isSome ↔ k ∈ keys m := by
  induction m with
  | nil => simp [lookupKey, keys]
  | cons p rest ih =>
    by_cases h : p.1 = k
    · subst h
      simp [lookupKey, keys]
    · have hk : keys (p :: rest) = p.1 :: keys rest := rfl
      rw [hk, List.mem_cons]
      simp only [lookupKey, if_neg h]
      rw [ih]
      constructor
      · exact Or.inr
      · rintro (rfl | hm)
        · exact absurd rfl h
        · exact hm

theorem lookupKey_omitKeys (m : AList α) (os : List String) (k : String) :
    lookupKey (omitKeys m os) k = if k ∈ os then none else lookupKey m k := by
  induction m with
  | nil => simp [lookupKey, omitKeys]
  | cons p rest ih =>
    obtain ⟨pk, pv⟩ := p
    by_cases hp : pk ∈ os
    · rw [omitKeys_cons_mem _ _ _ _ hp, ih]
      by_cases hko : k ∈ os
      · simp [hko]
      · have hne : pk ≠ k := fun he => hko (he ▸ hp)
        simp [hko, lookupKey, hne]
    · rw [omitKeys_cons_not_mem _ _ _ _ hp]
      by_cases hpk : pk = k
      · subst hpk
        simp [lookupKey, hp]
      · simp only [lookupKey, if_neg hpk]
        exact ih

/-- `pick` after `omit` equals `omit` after `pick`: the two projections used
by `addRegionRoutes` commute (not only on key sets but as whole objects). -/
theorem pick_omit_eq_omit_pick (m : AList α) (os ps : List String) :
    pick (omitKeys m os) ps = omitKeys (pick m ps) os := by
  induction ps with
  | nil => rfl
  | cons k rest ih =>
    by_cases hk : k ∈ os
    · have h1 : lookupKey (omitKeys m os) k = none := by
        rw [lookupKey_omitKeys, if_pos hk]
      rw [pick_cons_none _ _ _ h1]
      cases hv : lookupKey m k with
      | none => rw [pick_cons_none _ _ _ hv]; exact ih
      | some v =>
        rw [pick_cons_some _ _ _ _ hv, omitKeys_cons_mem _ _ _ _ hk]
        exact ih
    · have h1 : lookupKey (omitKeys m os) k = lookupKey m k := by
        rw [lookupKey_omitKeys, if_neg hk]
      cases hv : lookupKey m k with
      | none =>
        rw [pick_cons_none _ _ _ (h1.trans hv), pick_cons_none _ _ _ hv]
        exact ih
      | some v =>
        rw [pick_cons_some _ _ _ _ (h1.trans hv), pick_cons_some _ _ _ _ hv,
          omitKeys_cons_not_mem _ _ _ _ hk, ih]

theorem mem_keys_pick (m : AList α) (ps : List String) (k : String) :
    k ∈ keys (pick m ps) ↔ k ∈ ps ∧ k ∈ keys m := by
  induction ps with
  | nil => simp [pick, keys]
  | cons a rest ih =>
    cases hv : lookupKey m a with
    | none =>
      rw [pick_cons_none _ _ _ hv]
      constructor
      · intro h
        have h2 := ih.mp h
        exact ⟨List.mem_cons_of_mem _ h2.1, h2.2⟩
      · rintro ⟨hmem, hkm⟩
        rcases List.mem_cons.mp hmem with rfl | h2
        · rw [← lookupKey_isSome_iff_mem_keys, hv] at hkm
          cases hkm
        · exact ih.mpr ⟨h2, hkm⟩
    | some v =>
      rw [pick_cons_some _ _ _ _ hv]
      have hkeys : keys ((a, v) :: pick m rest) = a :: keys (pick m rest) := rfl
      rw [hkeys, List.mem_cons, ih, List.mem_cons]
      constructor
      · rintro (rfl | ⟨h1, h2⟩)
        · refine ⟨Or.inl rfl, ?_⟩
          rw [← lookupKey_isSome_iff_mem_keys, hv]
          rfl
        · exact ⟨Or.inr h1, h2⟩
      · rintro ⟨rfl | h1, h2⟩
        · exact Or.inl rfl
        · exact Or.inr ⟨h1, h2⟩

theorem mem_keys_omit (m : AList α) (os : List String) (k : String) :
    k ∈ keys (omitKeys m os) ↔ k ∈ keys m ∧ k ∉ os := by
  simp [keys, omitKeys, List.mem_filter]

/-! ### Configuration model

`config.js` is not part of the sources under scrutiny; the route generator is
therefore stated for an arbitrary configuration: a region map, a list of
calendar route entries, and a parameter-schema function. The fields embedded
are exactly the ones `route.js` reads. -/

/-- A value of `config.region()` (fields read by `route.js`). -/
structure RegionEntry where
  route : String
  types : List String
  omitParams : List String

/-- An entry of `config.calendar()` (fields read by `route.js`);
`type` is optional (the "all types" route has none). -/
structure CalendarEntry where
  type : Option String
  params : List String

/-- Path fragment contributed by an optional calendar type
(`routeEntry.type ? '/' + routeEntry.type : ''`). -/
def typeSeg : Option String → String
  | some t => "/" ++ t
  | none => ""

/-- The Joi validation rules that appear in `route.js`, by shape:
`Joi.number()` with optional `.integer()` / `.min()` / `.max()`,
`Joi.string()` with an `allow` list (`only = false`) or an exclusive
`valid` list (`only = true`), and `Joi.boolean()`. -/
inductive JoiRule
  | numberRule (int : Bool) (lo hi : Option ℚ)
  | stringRule (only : Bool) (allowList : List String)
  | booleanRule
deriving DecidableEq

/-- A (coerced) value submitted for one parameter. -/
inductive JoiVal
  | str (s : String)
  | num (q : ℚ)
  | boolVal (b : Bool)
deriving DecidableEq

/-- Whether a value satisfies a rule. `allow`ed values are exceptions added
to the base rule; only a `valid` list (`only = true`) is exclusive. -/
def validValue : JoiRule → JoiVal → Bool
  | .numberRule int lo hi, .num q =>
      (!int || decide (q.den = 1)) && lo.all (fun m => decide (m ≤ q))
        && hi.all (fun m => decide (q ≤ m))
  | .stringRule only allowList, .str s =>
      decide (s ∈ allowList) || (!only && !(s == ""))
  | .booleanRule, .boolVal _ => true
  | _, _ => false

/-- A rule together with the `.default(...)` applied when the parameter is
absent. -/
structure ParamRule where
  rule : JoiRule
  defaultVal : Option JoiVal
deriving DecidableEq

/-- `Joi.object(schema)` over a submitted query object: every submitted key
must be declared in the schema and its value must satisfy the key's rule
(hapi rejects unknown keys by default). -/
def validateQuery (schema : AList ParamRule) (q : AList JoiVal) : Bool :=
  q.all (fun p =>
    match lookupKey schema p.1 with
    | some pr => validValue pr.rule p.2
    | none => false)

/-- The value a validated handler sees for key `k`: the submitted value if
present, otherwise the schema's default. -/
def effectiveParam (schema : AList ParamRule) (q : AList JoiVal)
    (k : String) : Option JoiVal :=
  match lookupKey q k with
  | some v => some v
  | none =>
    match lookupKey schema k with
    | some pr => pr.defaultVal
    | none => none

/-- The `format` path-parameter rule of the calendar and region routes:
`Joi.string().allow('', '.ics', '.json').default('.json')`. -/
def calendarFormatParam : ParamRule :=
  { rule := .stringRule false ["", ".ics", ".json"]
    defaultVal := some (.str ".json") }

/-- A generated route: its path, its `format` path-parameter rule, and its
permitted query-parameter object (the argument of `Joi.object(...)` in the
route's `validate.query`). -/
structure Route (α : Type) where
  path : String
  formatParam : ParamRule
  query : AList α

/-- The route built by one iteration of `addCalendarRoutes`. -/
def mkCalendarRoute (params : AList α) (ce : CalendarEntry) : Route α :=
  { path := "/api/calendar" ++ typeSeg ce.type ++ "\x7bformat?\x7d"
    formatParam := calendarFormatParam
    query := pick params ce.params }

/-- `addCalendarRoutes`: one route registered per `config.calendar()` entry,
appended to the server's route table. -/
def addCalendarRoutes (params : AList α) (cal : List CalendarEntry)
    (server : List (Route α)) : List (Route α) :=
  cal.foldl (fun s ce => s ++ [mkCalendarRoute params ce]) server

/-- The route built by one (region, calendar entry) iteration of
`addRegionRoutes`: the schema is `_.omit(config.parameter(types), omitParams)`
then `_.pick(..., routeEntry.params)`. -/
def mkRegionRoute (paramFor : List String → AList α) (re : RegionEntry)
    (ce : CalendarEntry) : Route α :=
  { path := "/api/region/" ++ re.route ++ "/calendar" ++ typeSeg ce.type
      ++ "\x7bformat?\x7d"
    formatParam := calendarFormatParam
    query := pick (omitKeys (paramFor re.types) re.omitParams) ce.params }

/-- Guard of the early `return` in `addRegionRoutes`:
`routeEntry.type && !regionEntry.types.includes(routeEntry.type)`. -/
def routeTypeExcluded (re : RegionEntry) (ce : CalendarEntry) : Bool :=
  match ce.type with
  | some t => decide (t ∉ re.types)
  | none => false

/-- The positive condition: the route's type is absent or among the
region's types. -/
def routeTypeOk (re : RegionEntry) (ce : CalendarEntry) : Bool :=
  match ce.type with
  | some t => decide (t ∈ re.types)
  | none => true

/-- `addRegionRoutes`: for each region entry and each calendar entry, skip
the pair when the guard fires, otherwise register the region route. -/
def addRegionRoutes (paramFor : List String → AList α)
    (regionsCfg : AList RegionEntry) (cal : List CalendarEntry)
    (server : List (Route α)) : List (Route α) :=
  regionsCfg.foldl
    (fun s rp =>
      cal.foldl
        (fun s ce =>
          if routeTypeExcluded rp.2 ce then s
          else s ++ [mkRegionRoute paramFor rp.2 ce])
        s)
    server

/-- Concatenation of the images of `f`, used to describe the effect of the
route-registration folds. -/
def concatMap (f : β → List α) (l : List β) : List α :=
  l.foldr (fun b acc => f b ++ acc) []

theorem concatMap_nil (f : β → List α) : concatMap f [] = [] := rfl

theorem concatMap_cons (f : β → List α) (b : β) (l : List β) :
    concatMap f (b :: l) = f b ++ concatMap f l := rfl

theorem length_concatMap (f : β → List α) (l : List β) :
    (concatMap f l).length = (l.map (fun b => (f b).length)).sum := by
  induction l with
  | nil => rfl
  | cons b rest ih => simp [concatMap_cons, ih]

theorem mem_concatMap (f : β → List α) (l : List β) (a : α) :
    a ∈ concatMap f l ↔ ∃ b ∈ l, a ∈ f b := by
  induction l with
  | nil => simp [concatMap_nil]
  | cons b rest ih => simp [concatMap_cons, ih]

theorem foldl_append (g : β → List α) :
    ∀ (l : List β) (s : List α),
      l.foldl (fun acc b => acc ++ g b) s = s ++ concatMap g l := by
  intro l
  induction l with
  | nil => intro s; simp [concatMap_nil]
  | cons b rest ih =>
    intro s
    rw [List.foldl_cons, ih, concatMap_cons, List.append_assoc]

theorem foldl_guard_append (p : β → Bool) (g : β → List α) :
    ∀ (l : List β) (s : List α),
      l.foldl (fun acc b => if p b then acc else acc ++ g b) s
        = s ++ concatMap (fun b => if p b then [] else g b) l := by
  intro l
  induction l with
  | nil => intro s; simp [concatMap_nil]
  | cons b rest ih =>
    intro s
    by_cases hb : p b
    · rw [List.foldl_cons, if_pos hb, ih, concatMap_cons, if_pos hb,
        List.nil_append]
    · rw [List.foldl_cons, if_neg hb, ih, concatMap_cons, if_neg hb,
        List.append_assoc]

theorem concatMap_guard (p : β → Bool) (f : β → α) (l : List β) :
    concatMap (fun b => if p b then [] else [f b]) l
      = (l.filter (fun b => !p b)).map f := by
  induction l with
  | nil => rfl
  | cons b rest ih =>
    by_cases hb : p b
    · rw [concatMap_cons, if_pos hb, List.nil_append, ih, List.filter_cons]
      simp [hb]
    · rw [concatMap_cons, if_neg hb, ih, List.filter_cons]
      simp [hb]

theorem concatMap_singleton (f : β → α) (l : List β) :
    concatMap (fun b => [f b]) l = l.map f := by
  induction l with
  | nil => rfl
  | cons b rest ih => rw [concatMap_cons, ih]; rfl

theorem addCalendarRoutes_eq (params : AList α) (cal : List CalendarEntry)
    (server : List (Route α)) :
    addCalendarRoutes params cal server
      = server ++ cal.map (mkCalendarRoute params) := by
  unfold addCalendarRoutes
  rw [foldl_append (fun ce => [mkCalendarRoute params ce]) cal server,
    concatMap_singleton]

theorem not_routeTypeExcluded (re : RegionEntry) (ce : CalendarEntry) :
    (!routeTypeExcluded re ce) = routeTypeOk re ce := by
  obtain ⟨ty, ps⟩ := ce
  cases ty <;> simp [routeTypeExcluded, routeTypeOk]

theorem addRegionRoutes_eq (paramFor : List String → AList α)
    (regionsCfg : AList RegionEntry) (cal : List CalendarEntry)
    (server : List (Route α)) :
    addRegionRoutes paramFor regionsCfg cal server
      = server ++ concatMap (fun rp =>
          (cal.filter (fun ce => routeTypeOk rp.2 ce)).map
            (mkRegionRoute paramFor rp.2)) regionsCfg := by
  unfold addRegionRoutes
  have hfun : (fun (s : List (Route α)) (rp : String × RegionEntry) =>
      cal.foldl (fun s ce => if routeTypeExcluded rp.2 ce then s
        else s ++ [mkRegionRoute paramFor rp.2 ce]) s)
      = fun s rp => s ++ (cal.filter (fun ce => routeTypeOk rp.2 ce)).map
          (mkRegionRoute paramFor rp.2) := by
    funext s rp
    rw [foldl_guard_append (fun ce => routeTypeExcluded rp.2 ce)
      (fun ce => [mkRegionRoute paramFor rp.2 ce]) cal s, concatMap_guard]
    have hpred : (fun ce => !routeTypeExcluded rp.2 ce)
        = fun ce => routeTypeOk rp.2 ce := by
      funext ce
      exact not_routeTypeExcluded rp.2 ce
    rw [hpred]
  rw [hfun]
  exact foldl_append _ regionsCfg server

/-- C1: for every generated region-scoped calendar route, the permitted query
parameter object equals `pick(parameterSchema(region.types), route.params)`
further reduced by `omit(..., region.omitParams)` (the code applies `omit`
before `pick`; the two projections commute), so the route accepts exactly the
parameter names that are in the schema for the region's types, listed in the
calendar route's `params`, and not in the region's `omitParams`. -/
theorem c1_region_route_parameter_set (paramFor : List String → AList α)
    (re : RegionEntry) (ce : CalendarEntry) :
    (mkRegionRoute paramFor re ce).query
        = omitKeys (pick (paramFor re.types) ce.params) re.omitParams
    ∧ ∀ k : String,
        k ∈ keys (mkRegionRoute paramFor re ce).query
          ↔ (k ∈ keys (paramFor re.types) ∧ k ∈ ce.params
              ∧ k ∉ re.omitParams) := by
  constructor
  · exact pick_omit_eq_omit_pick (paramFor re.types) re.omitParams ce.params
  · intro k
    show k ∈ keys (pick (omitKeys (paramFor re.types) re.omitParams)
      ce.params) ↔ _
    rw [mem_keys_pick, mem_keys_omit]
    tauto

/-- C2: region-scoped calendar routes are generated for exactly those
(region, calendar entry) pairs whose route type is absent or a member of the
region's type set, and the no-region calendar routes are one per calendar
entry, unconditionally. -/
theorem c2_route_generation_condition (paramFor : List String → AList α)
    (params : AList α) (regionsCfg : AList RegionEntry)
    (cal : List CalendarEntry) (server srv2 : List (Route α)) :
    addRegionRoutes paramFor regionsCfg cal server
      = server ++ concatMap (fun rp =>
          (cal.filter (fun ce => routeTypeOk rp.2 ce)).map
            (mkRegionRoute paramFor rp.2)) regionsCfg
    ∧ addCalendarRoutes params cal srv2
        = srv2 ++ cal.map (mkCalendarRoute params) :=
  ⟨addRegionRoutes_eq paramFor regionsCfg cal server,
    addCalendarRoutes_eq params cal srv2⟩

/-! ### The station route (`addStationRoutes`) -/

/-- The query schema of `/api/stations{format?}` (`route.js`, the
`validate.query` object of `addStationRoutes`); `regions` is the sorted list
of configured region slugs. -/
def stationQuerySchema (regions : List String) : AList ParamRule :=
  [ ("region", ⟨.stringRule true regions, none⟩),
    ("zip", ⟨.numberRule true (some 1000) (some 9999), none⟩),
    ("name", ⟨.stringRule false [], none⟩),
    ("glass", ⟨.booleanRule, none⟩),
    ("oil", ⟨.booleanRule, none⟩),
    ("metal", ⟨.booleanRule, none⟩),
    ("textile", ⟨.booleanRule, none⟩),
    ("sort", ⟨.stringRule false [], none⟩),
    ("offset", ⟨.numberRule false none none, some (.num 0)⟩),
    ("limit", ⟨.numberRule false none none, some (.num 500)⟩) ]

/-- `addStationRoutes`: `var regions = _.keys(config.region()).sort();` then
one route with the station format rule and the station query schema. -/
def addStationRoutes (regionsCfg : AList RegionEntry) : Route ParamRule :=
  let regions := List.insertionSort (· ≤ ·) (keys regionsCfg)
  { path := "/api/stations\x7bformat?\x7d"
    formatParam := { rule := .stringRule false ["", ".json"]
                     defaultVal := some (.str ".json") }
    query := stationQuerySchema regions }

theorem lookupKey_mem (m : AList α) (k : String) (v : α)
    (h : lookupKey m k = some v) : (k, v) ∈ m := by
  induction m with
  | nil => cases h
  | cons p rest ih =>
    by_cases hp : p.1 = k
    · subst hp
      simp only [lookupKey, if_pos rfl] at h
      injection h with h2
      subst h2
      exact List.mem_cons_self p rest
    · simp only [lookupKey, if_neg hp] at h
      exact List.mem_cons_of_mem _ (ih h)

/-- C3 as stated is false at a concrete input: the station route's
validation accepts `offset = -1` (negative) and `limit = 1/2`
(non-integer), because `route.js` uses plain `Joi.number()` for both,
without `.integer()` or `.min(0)`. -/
theorem c3_counterexample :
    validateQuery (addStationRoutes []).query [("offset", JoiVal.num (-1))]
        = true
    ∧ validateQuery (addStationRoutes []).query
        [("limit", JoiVal.num (1 / 2))] = true := by
  constructor <;> decide

/-- C3 amended: on the station route, `offset` and `limit` are validated as
plain numbers with defaults 0 and 500; every numeric value (negative and
non-integer included) passes their validation. -/
theorem c3_offset_limit_rules (regionsCfg : AList RegionEntry) :
    lookupKey (addStationRoutes regionsCfg).query "offset"
        = some ⟨.numberRule false none none, some (.num 0)⟩
    ∧ lookupKey (addStationRoutes regionsCfg).query "limit"
        = some ⟨.numberRule false none none, some (.num 500)⟩
    ∧ (∀ q : ℚ, validValue (.numberRule false none none) (.num q) = true)
    ∧ effectiveParam (addStationRoutes regionsCfg).query [] "offset"
        = some (.num 0)
    ∧ effectiveParam (addStationRoutes regionsCfg).query [] "limit"
        = some (.num 500) := by
  refine ⟨rfl, rfl, ?_, rfl, rfl⟩
  intro q
  simp [validValue]

/-- C4 fails on the code: the `{format}` rules are built with Joi `allow`,
which adds permitted values without excluding others, so an unknown suffix
such as `.xml` passes validation on the station, calendar and region routes
(and `.ics` also passes on the station route), while the routes' own
descriptions say only `json` (resp. `json`/`ics`) is supported. -/
theorem c4_format_suffix_not_validated :
    validValue (addStationRoutes []).formatParam.rule (JoiVal.str ".xml")
        = true
    ∧ validValue (mkCalendarRoute ([] : AList Unit) ⟨none, []⟩).formatParam.rule
        (JoiVal.str ".xml") = true
    ∧ validValue (mkRegionRoute (fun _ => ([] : AList Unit))
        ⟨"zurich", [], []⟩ ⟨none, []⟩).formatParam.rule (JoiVal.str ".xml")
        = true
    ∧ validValue (addStationRoutes []).formatParam.rule (JoiVal.str ".ics")
        = true := by
  refine ⟨?_, ?_, ?_, ?_⟩ <;> decide

/-- C9: the station route's `region` query parameter is an exclusive Joi
`valid(...)` list built from the configured region slugs, so a request whose
`region` value is not a configured region key fails validation. -/
theorem c9_station_region_restricted (regionsCfg : AList RegionEntry)
    (q : AList JoiVal) (r : String)
    (hq : lookupKey q "region" = some (JoiVal.str r))
    (hr : r ∉ keys regionsCfg) :
    validateQuery (addStationRoutes regionsCfg).query q = false := by
  have hmem : ("region", JoiVal.str r) ∈ q := lookupKey_mem q "region" _ hq
  unfold validateQuery
  rw [List.all_eq_false]
  refine ⟨("region", JoiVal.str r), hmem, ?_⟩
  have hsch : lookupKey (addStationRoutes regionsCfg).query "region"
      = some ⟨.stringRule true (List.insertionSort (· ≤ ·) (keys regionsCfg)),
          none⟩ := rfl
  simp only [hsch, validValue]
  have hnot : r ∉ List.insertionSort (· ≤ ·) (keys regionsCfg) := by
    intro hmem2
    exact hr ((List.perm_insertionSort (· ≤ ·) (keys regionsCfg)).mem_iff.mp
      hmem2)
  simp [hnot, hr]

/-- Example region configuration used to exercise theorems with
hypotheses. -/
def regionsCfgEx : AList RegionEntry :=
  [("zurich", ⟨"zurich", ["waste", "paper"], []⟩)]

/-- Witness for C9 at a concrete input: `region=basel` is rejected when only
`zurich` is configured. -/
theorem c9_witness :
    validateQuery (addStationRoutes regionsCfgEx).query
      [("region", JoiVal.str "basel")] = false :=
  c9_station_region_restricted regionsCfgEx
    [("region", JoiVal.str "basel")] "basel" rfl (by decide)

/-! ### The parameter routes (`addParamRoutes`) -/

/-- Response of the parameter routes: the JSON envelope
`{_metadata: {total_count, row_count}, result}`. -/
structure ParamResult where
  total_count : Nat
  row_count : Nat
  result : List String
deriving DecidableEq

/-- Handler of `GET /api/parameter/regions`:
`var regionList = _.keys(regions).sort();` returned with both counts equal
to its length. -/
def regionsHandler (regionsCfg : AList RegionEntry) : ParamResult :=
  let regionList := List.insertionSort (· ≤ ·) (keys regionsCfg)
  { total_count := regionList.length
    row_count := regionList.length
    result := regionList }

/-- Handler of `GET /api/parameter/types`: region-scoped when the `region`
query value is truthy (a present empty string is falsy in JS), global
otherwise; `none` models the JS crash on `regions[region]['types']` for an
unconfigured region. -/
def typesHandler (regionsCfg : AList RegionEntry) (allTypes : List String)
    (region : Option String) : Option ParamResult :=
  match region with
  | some r =>
    if r = "" then
      some { total_count := allTypes.length, row_count := allTypes.length,
             result := allTypes }
    else
      (lookupKey regionsCfg r).map (fun re =>
        { total_count := re.types.length, row_count := re.types.length,
          result := re.types })
  | none =>
    some { total_count := allTypes.length, row_count := allTypes.length,
           result := allTypes }

/-- C7: `/api/parameter/regions` returns the configured region slugs in
ascending order, with `total_count` and `row_count` both equal to the number
of configured regions. -/
theorem c7_regions_route (regionsCfg : AList RegionEntry) :
    List.Sorted (· ≤ ·) (regionsHandler regionsCfg).result
    ∧ (regionsHandler regionsCfg).result.Perm (keys regionsCfg)
    ∧ (regionsHandler regionsCfg).total_count = (keys regionsCfg).length
    ∧ (regionsHandler regionsCfg).row_count = (keys regionsCfg).length := by
  refine ⟨?_, ?_, ?_, ?_⟩
  · exact List.sorted_insertionSort _ _
  · exact List.perm_insertionSort _ _
  · exact (List.perm_insertionSort (· ≤ ·) (keys regionsCfg)).length_eq
  · exact (List.perm_insertionSort (· ≤ ·) (keys regionsCfg)).length_eq

/-- C6: `/api/parameter/types?region=r` returns exactly the type list
configured for `r`, in its configured order; without `region` it returns the
global type list; both counts equal the returned list's length. -/
theorem c6_types_route (regionsCfg : AList RegionEntry)
    (allTypes : List String) (r : String) (re : RegionEntry)
    (hr : lookupKey regionsCfg r = some re) (hne : r ≠ "") :
    typesHandler regionsCfg allTypes (some r)
        = some { total_count := re.types.length,
                 row_count := re.types.length, result := re.types }
    ∧ typesHandler regionsCfg allTypes none
        = some { total_count := allTypes.length,
                 row_count := allTypes.length, result := allTypes } := by
  constructor
  · simp [typesHandler, hne, hr]
  · rfl

/-- Witness for C6 at a concrete configuration. -/
theorem c6_witness :
    typesHandler regionsCfgEx ["waste", "paper", "organic"] (some "zurich")
        = some { total_count := 2, row_count := 2,
                 result := ["waste", "paper"] }
    ∧ typesHandler regionsCfgEx ["waste", "paper", "organic"] none
        = some { total_count := 3, row_count := 3,
                 result := ["waste", "paper", "organic"] } :=
  c6_types_route regionsCfgEx ["waste", "paper", "organic"] "zurich"
    ⟨"zurich", ["waste", "paper"], []⟩ rfl (by decide)

/-! ### The query engine (spec-modelled) -/

/-- Result of one store query: the filtered (pre-pagination) count and the
returned rows. -/
structure QueryResult (ρ : Type) where
  totalCount : Nat
  rows : List ρ

/-- Insertion of one row into a list sorted by `le`. -/
def insertSorted (le : ρ → ρ → Bool) (x : ρ) : List ρ → List ρ
  | [] => [x]
  | y :: ys => if le x y then x :: y :: ys else y :: insertSorted le x ys

/-- Sorting of the filtered rows by the requested comparison. -/
def sortRows (le : ρ → ρ → Bool) (l : List ρ) : List ρ :=
  l.foldr (insertSorted le) []

theorem length_insertSorted (le : ρ → ρ → Bool) (x : ρ) (l : List ρ) :
    (insertSorted le x l).length = l.length + 1 := by
  induction l with
  | nil => rfl
  | cons y ys ih =>
    by_cases h : le x y
    · simp [insertSorted, h]
    · simp [insertSorted, h, ih]

theorem length_sortRows (le : ρ → ρ → Bool) (l : List ρ) :
    (sortRows le l).length = l.length := by
  induction l with
  | nil => rfl
  | cons y ys ih =>
    show (insertSorted le y (sortRows le ys)).length = ys.length + 1
    rw [length_insertSorted, ih]

/-- Modelled from the spec: the Query Engine (`lib/query.js` and the
station/calendar handlers it serves are not among the sources under `src/`).
Per spec §4.3 the engine filters, sorts, then paginates: `offset` skips that
many matching rows after filter+sort, `limit` caps the returned row count,
and `totalCount` reports the filtered pre-pagination count. -/
def query (records : List ρ) (pred : ρ → Bool) (le : ρ → ρ → Bool)
    (offset limit : Nat) : QueryResult ρ :=
  let filtered := records.filter pred
  { totalCount := filtered.length
    rows := ((sortRows le filtered).drop offset).take limit }

/-- C5: for every query, the number of returned rows is at most `limit` and
at most `totalCount`, and `totalCount` does not change when only `offset`
and/or `limit` change. -/
theorem c5_pagination_bounds (ρ : Type) (records : List ρ) (pred : ρ → Bool)
    (le : ρ → ρ → Bool) (offset limit : Nat) :
    (query records pred le offset limit).rows.length ≤ limit
    ∧ (query records pred le offset limit).rows.length
        ≤ (query records pred le offset limit).totalCount
    ∧ ∀ o2 l2 : Nat, (query records pred le o2 l2).totalCount
        = (query records pred le offset limit).totalCount := by
  refine ⟨?_, ?_, fun o2 l2 => rfl⟩
  · exact List.length_take_le limit _
  · show (((sortRows le (records.filter pred)).drop offset).take
        limit).length ≤ (records.filter pred).length
    calc (((sortRows le (records.filter pred)).drop offset).take
            limit).length
        ≤ ((sortRows le (records.filter pred)).drop offset).length := by
            rw [List.length_take]
            exact min_le_right _ _
      _ ≤ (sortRows le (records.filter pred)).length := by
            rw [List.length_drop]
            exact Nat.sub_le _ _
      _ = (records.filter pred).length := length_sortRows le _

/-! ### The CSV import job (`src/loadData.js`) -/

/-- A parsed CSV row (a JSON-like object). -/
abbrev Doc := AList String

/-- JS property assignment `obj[k] = v`: overwrite an existing binding,
otherwise add the property. -/
def setField (d : Doc) (k v : String) : Doc :=
  if d.any (fun p => decide (p.1 = k)) then
    d.map (fun p => if p.1 = k then (p.1, v) else p)
  else d ++ [(k, v)]

theorem lookupKey_setField (d : Doc) (k v : String) :
    lookupKey (setField d k v) k = some v := by
  induction d with
  | nil => simp [setField, lookupKey]
  | cons p rest ih =>
    by_cases hp : p.1 = k
    · have hany : ((p :: rest).any (fun p => decide (p.1 = k))) = true := by
        simp [List.any_cons, hp]
      rw [setField, if_pos hany]
      simp [lookupKey, hp]
    · by_cases hr : (rest.any (fun p => decide (p.1 = k))) = true
      · have hany : ((p :: rest).any (fun p => decide (p.1 = k))) = true := by
          simp [List.any_cons, hr]
        rw [setField, if_pos hany]
        simp only [List.map_cons, if_neg hp]
        simp only [lookupKey, if_neg hp]
        have h2 := ih
        rw [setField, if_pos hr] at h2
        exact h2
      · have hany : ((p :: rest).any (fun p => decide (p.1 = k))) = false := by
          rw [List.any_cons, Bool.or_eq_false_iff]
          exact ⟨decide_eq_false hp, Bool.eq_false_iff.mpr hr⟩
        rw [setField, if_neg (by simp [hany])]
        simp only [List.cons_append]
        simp only [lookupKey, if_neg hp]
        have h2 := ih
        rw [setField, if_neg (by simp [hr])] at h2
        exact h2

/-- An operation issued against the record store. -/
inductive DbOp
  | removeAll (coll : String)
  | insert (coll : String) (doc : Doc)
deriving DecidableEq

def isInsert : DbOp → Bool
  | .insert _ _ => true
  | .removeAll _ => false

/-- One entry of the `csvs` array: source path, parser format, delimiter,
target collection and type tag. -/
structure CsvSpec where
  path : String
  fmt : String
  delimiter : String
  collection : String
  type : String
deriving DecidableEq

/-- The `csvs` array of `loadData.js`, entry by entry. -/
def csvs : List CsvSpec :=
  [ ⟨"./csv/Entsorgung_Sammelstellen.csv", "stationEntry", ",",
      "station", "stations"⟩,
    ⟨"./csv/Entsorgungskalender_Bioabfall_2014.csv", "calendarEntry", ";",
      "calendar", "organic"⟩,
    ⟨"./csv/Entsorgungskalender_CargoTram_2014.csv", "calendarEntry", ";",
      "calendar", "cargotram"⟩,
    ⟨"./csv/Entsorgungskalender_eTram_2014.csv", "calendarEntry", ";",
      "calendar", "etram"⟩,
    ⟨"./csv/Entsorgungskalender_Karton_2014.csv", "calendarEntry", ";",
      "calendar", "cardboard"⟩,
    ⟨"./csv/Entsorgungskalender_Papier_2014.csv", "calendarEntry", ";",
      "calendar", "paper"⟩,
    ⟨"./csv/Entsorgungskalender_Kehricht_2014.csv", "calendarEntry", ";",
      "calendar", "waste"⟩,
    ⟨"./csv/Entsorgungskalender_Sonderabfall_2014.csv", "calendarEntry", ";",
      "calendar", "special"⟩,
    ⟨"./csv/Entsorgungskalender_Textilien_2014.csv", "calendarEntry", ";",
      "calendar", "textile"⟩,
    ⟨"./csv/Entsorgungskalender_Bioabfall_2015.csv", "calendarEntry", ";",
      "calendar", "organic"⟩,
    ⟨"./csv/Entsorgungskalender_CargoTram_2015.csv", "calendarEntry", ";",
      "calendar", "cargotram"⟩,
    ⟨"./csv/Entsorgungskalender_eTram_2015.csv", "calendarEntry", ";",
      "calendar", "etram"⟩,
    ⟨"./csv/Entsorgungskalender_Karton_2015.csv", "calendarEntry", ";",
      "calendar", "cardboard"⟩,
    ⟨"./csv/Entsorgungskalender_Papier_2015.csv", "calendarEntry", ";",
      "calendar", "paper"⟩,
    ⟨"./csv/Entsorgungskalender_Kehricht_2015.csv", "calendarEntry", ";",
      "calendar", "waste"⟩,
    ⟨"./csv/Entsorgungskalender_Sonderabfall_2015.csv", "calendarEntry", ";",
      "calendar", "special"⟩,
    ⟨"./csv/Entsorgungskalender_Textilien_2015.csv", "calendarEntry", ";",
      "calendar", "textile"⟩,
    ⟨"./csv/Entsorgungskalender_Bioabfall_2016.csv", "calendarEntry", ",",
      "calendar", "organic"⟩,
    ⟨"./csv/Entsorgungskalender_CargoTram_2016.csv", "calendarEntry", ",",
      "calendar", "cargotram"⟩,
    ⟨"./csv/Entsorgungskalender_eTram_2016.csv", "calendarEntry", ",",
      "calendar", "etram"⟩,
    ⟨"./csv/Entsorgungskalender_Karton_2016.csv", "calendarEntry", ",",
      "calendar", "cardboard"⟩,
    ⟨"./csv/Entsorgungskalender_Papier_2016.csv", "calendarEntry", ",",
      "calendar", "paper"⟩,
    ⟨"./csv/Entsorgungskalender_Kehricht_2016.csv", "calendarEntry", ",",
      "calendar", "waste"⟩,
    ⟨"./csv/Entsorgungskalender_Sonderabfall_2016.csv", "calendarEntry", ",",
      "calendar", "special"⟩,
    ⟨"./csv/Entsorgungskalender_Textilien_2016.csv", "calendarEntry", ",",
      "calendar", "textile"⟩ ]

/-- `importCsv` of `loadData.js`, as the operations it issues: one insert
per converted row; the `type` tag is set on the row unless the tag is
`'stations'`. `rows` stands for `csv.convertToJson` (in the excluded
`lib/csv.js`). -/
def importCsv (rows : CsvSpec → List Doc) (c : CsvSpec) : List DbOp :=
  (rows c).map (fun obj =>
    DbOp.insert c.collection
      (if c.type ≠ "stations" then setField obj "type" c.type else obj))

/-- The operation sequence of the `ready` handler: clear the station and
calendar collections, then import every file of `csvs` in order. -/
def etlOps (rows : CsvSpec → List Doc) : List DbOp :=
  [DbOp.removeAll "station", DbOp.removeAll "calendar"]
    ++ concatMap (importCsv rows) csvs

/-- Record-store semantics: `removeAll` empties a collection, `insert`
appends a document to it unconditionally (no duplicate check). -/
def applyOp (store : String → List Doc) : DbOp → String → List Doc
  | .removeAll c => fun n => if n = c then [] else store n
  | .insert c d => fun n => if n = c then store n ++ [d] else store n

def runOps (ops : List DbOp) (store : String → List Doc) :
    String → List Doc :=
  ops.foldl applyOp store

/-- The documents a sequence of operations inserts into collection `c`,
in order. -/
def insertedDocs (ops : List DbOp) (c : String) : List Doc :=
  ops.filterMap (fun op =>
    match op with
    | .insert c2 d => if c2 = c then some d else none
    | .removeAll _ => none)

theorem runOps_of_inserts (ops : List DbOp)
    (h : ∀ op ∈ ops, isInsert op = true) :
    ∀ (store : String → List Doc) (c : String),
      runOps ops store c = store c ++ insertedDocs ops c := by
  induction ops with
  | nil => intro store c; simp [runOps, insertedDocs]
  | cons op rest ih =>
    intro store c
    cases op with
    | removeAll c2 =>
      have := h _ (List.mem_cons_self _ _)
      simp [isInsert] at this
    | insert c2 d =>
      have hrest : ∀ op ∈ rest, isInsert op = true :=
        fun op hm => h op (List.mem_cons_of_mem _ hm)
      show runOps rest (applyOp store (.insert c2 d)) c = _
      rw [ih hrest]
      by_cases hc : c2 = c
      · subst hc
        simp [applyOp, insertedDocs, List.filterMap_cons]
      · have hc2 : ¬c = c2 := fun he => hc he.symm
        simp [applyOp, insertedDocs, List.filterMap_cons, hc, hc2]

theorem etl_tail_inserts (rows : CsvSpec → List Doc) :
    ∀ op ∈ concatMap (importCsv rows) csvs, isInsert op = true := by
  intro op hop
  obtain ⟨c, _, hin⟩ := (mem_concatMap _ _ _).mp hop
  obtain ⟨o, _, rfl⟩ := List.mem_map.mp hin
  rfl

theorem insertedDocs_append (l1 l2 : List DbOp) (c : String) :
    insertedDocs (l1 ++ l2) c = insertedDocs l1 c ++ insertedDocs l2 c := by
  simp [insertedDocs]

theorem runOps_append (l1 l2 : List DbOp) (store : String → List Doc) :
    runOps (l1 ++ l2) store = runOps l2 (runOps l1 store) := by
  unfold runOps
  exact List.foldl_append applyOp store l1 l2

/-- C8: the ETL clears the station and the calendar collection exactly once
each, both before any insert; it then issues one insert per parsed CSV row
(no duplicate check), and the resulting collection contents are exactly the
concatenation of every inserted document — duplicates included — regardless
of the store's prior contents. -/
theorem c8_etl_clear_once_then_insert_all (rows : CsvSpec → List Doc)
    (store : String → List Doc) :
    (etlOps rows).take 2
        = [DbOp.removeAll "station", DbOp.removeAll "calendar"]
    ∧ (∀ op ∈ (etlOps rows).drop 2, isInsert op = true)
    ∧ (etlOps rows).count (DbOp.removeAll "station") = 1
    ∧ (etlOps rows).count (DbOp.removeAll "calendar") = 1
    ∧ ((etlOps rows).drop 2).length
        = (csvs.map (fun c => (rows c).length)).sum
    ∧ runOps (etlOps rows) store "calendar"
        = insertedDocs (etlOps rows) "calendar"
    ∧ runOps (etlOps rows) store "station"
        = insertedDocs (etlOps rows) "station" := by
  have hdrop : (etlOps rows).drop 2 = concatMap (importCsv rows) csvs := rfl
  have htail := etl_tail_inserts rows
  have hnotmem : ∀ c0 : String,
      DbOp.removeAll c0 ∉ concatMap (importCsv rows) csvs := by
    intro c0 hmem
    have := htail _ hmem
    simp [isInsert] at this
  refine ⟨rfl, ?_, ?_, ?_, ?_, ?_, ?_⟩
  · rw [hdrop]; exact htail
  · show ([DbOp.removeAll "station", DbOp.removeAll "calendar"]
        ++ concatMap (importCsv rows) csvs).count _ = 1
    rw [List.count_append, List.count_eq_zero.mpr (hnotmem "station")]
    decide
  · show ([DbOp.removeAll "station", DbOp.removeAll "calendar"]
        ++ concatMap (importCsv rows) csvs).count _ = 1
    rw [List.count_append, List.count_eq_zero.mpr (hnotmem "calendar")]
    decide
  · rw [hdrop, length_concatMap]
    congr 1
    apply List.map_congr_left
    intro c _
    simp [importCsv]
  · rw [show etlOps rows = [DbOp.removeAll "station",
        DbOp.removeAll "calendar"] ++ concatMap (importCsv rows) csvs
      from rfl, insertedDocs_append, runOps_append,
      runOps_of_inserts _ htail]
    simp [runOps, applyOp, insertedDocs]
  · rw [show etlOps rows = [DbOp.removeAll "station",
        DbOp.removeAll "calendar"] ++ concatMap (importCsv rows) csvs
      from rfl, insertedDocs_append, runOps_append,
      runOps_of_inserts _ htail]
    simp [runOps, applyOp, insertedDocs]

/-- The calendar type tags the ETL assigns. -/
def calendarTypes : List String :=
  ["organic", "cargotram", "etram", "cardboard", "paper", "waste",
    "special", "textile"]

/-- C10: every document inserted into the calendar collection carries a
`type` field whose value is one of the eight calendar type tags, and every
document inserted into the station collection is a parsed row unchanged —
the ETL gives it no `type` field. -/
theorem c10_inserted_doc_types (rows : CsvSpec → List Doc) (d : Doc) :
    (DbOp.insert "calendar" d ∈ etlOps rows
      → ∃ t, lookupKey d "type" = some t ∧ t ∈ calendarTypes)
    ∧ (DbOp.insert "station" d ∈ etlOps rows
      → ∃ c ∈ csvs, c.collection = "station" ∧ d ∈ rows c) := by
  have hcal : ∀ c ∈ csvs, c.collection = "calendar"
      → (c.type ≠ "stations" ∧ c.type ∈ calendarTypes) := by decide
  have hsta : ∀ c ∈ csvs, c.collection = "station"
      → c.type = "stations" := by decide
  have hsplit : ∀ (coll : String), DbOp.insert coll d ∈ etlOps rows
      → ∃ c ∈ csvs, ∃ o ∈ rows c, coll = c.collection
          ∧ d = (if c.type ≠ "stations" then setField o "type" c.type
              else o) := by
    intro coll hmem
    rcases List.mem_append.mp hmem with hmem2 | hmem2
    · simp at hmem2
    · obtain ⟨c, hc, hin⟩ := (mem_concatMap _ _ _).mp hmem2
      obtain ⟨o, ho, heq⟩ := List.mem_map.mp hin
      injection heq with h1 h2
      exact ⟨c, hc, o, ho, h1.symm, h2.symm⟩
  constructor
  · intro hmem
    obtain ⟨c, hc, o, _, hcoll, hd⟩ := hsplit "calendar" hmem
    obtain ⟨hne, htype⟩ := hcal c hc hcoll.symm
    rw [if_pos hne] at hd
    exact ⟨c.type, hd ▸ lookupKey_setField o "type" c.type, htype⟩
  · intro hmem
    obtain ⟨c, hc, o, ho, hcoll, hd⟩ := hsplit "station" hmem
    have hty := hsta c hc hcoll.symm
    rw [if_neg (by simp [hty])] at hd
    exact ⟨c, hc, hcoll.symm, hd ▸ ho⟩

/-- A concrete row set used to exercise the ETL theorems. -/
def rowsEx : CsvSpec → List Doc := fun c =>
  if c.collection = "station" then [[("zip", "8001")]]
  else [[("date", "2014-01-01")]]

/-- Witness for C10 at a concrete input: the organic 2014 row gets
`type = organic`; the station row is inserted unchanged. -/
theorem c10_witness :
    (∃ t, lookupKey [("date", "2014-01-01"), ("type", "organic")] "type"
        = some t ∧ t ∈ calendarTypes)
    ∧ (∃ c ∈ csvs, c.collection = "station"
        ∧ [("zip", "8001")] ∈ rowsEx c) :=
  ⟨(c10_inserted_doc_types rowsEx
      [("date", "2014-01-01"), ("type", "organic")]).1 (by decide),
    (c10_inserted_doc_types rowsEx [("zip", "8001")]).2 (by decide)⟩

end OpenErz
